import Mathlib

/-!
Verification development for the Lightkeyia multi-instance inference client and
adaptive batch scheduler.  The Python sources (`ollama_client.py`,
`image_processor.py`, `utils.py`) are shallowly embedded: pure computations
become Lean functions, the mutable per-instance statistics become explicit
record states, the network and the clock become oracles supplied per attempt,
and Python floats are modelled as exact rationals (every constant appearing in
the sources — 0.8, 0.3, 1.5, 10, 30, 40, 60, 90 — is used only in comparisons
and scalings where the tiny binary-float rounding of the sources cannot flip
any of the concrete comparisons proved below).
-/

/-- State of one Ollama endpoint, mirroring `OllamaInstance.__init__` in
`ollama_client.py`.  `semValue` models `self.semaphore._value`, the *current*
counter of the `threading.Semaphore` created with the configured concurrency
limit (it equals the limit minus the number of currently held permits); it is
an `Int` because, as proved below, the code can over-release the semaphore.
`active_requests` is an `Int` for the same reason. -/
structure OllamaInstance where
  url : String
  active_requests : Int
  total_requests : Nat
  failed_requests : Nat
  total_processing_time : ℚ
  last_response_time : ℚ
  is_available : Bool
  models : List String
  semValue : Int
deriving DecidableEq, Repr

/-- `OllamaInstance.update_stats`: bump totals, record the latency, and count
the failure when `success` is false. -/
def OllamaInstance.update_stats (s : OllamaInstance) (success : Bool) (response_time : ℚ) :
    OllamaInstance :=
  { s with
    total_requests := s.total_requests + 1
    last_response_time := response_time
    total_processing_time := s.total_processing_time + response_time
    failed_requests := if success then s.failed_requests else s.failed_requests + 1 }

/-- `OllamaInstance.get_average_response_time`: mean latency, 0 with no history. -/
def OllamaInstance.get_average_response_time (s : OllamaInstance) : ℚ :=
  if 0 < s.total_requests then s.total_processing_time / (s.total_requests : ℚ) else 0

/-- `OllamaInstance.is_overloaded`: the source compares `active_requests`
against `self.semaphore._value * 0.8` — the *current* semaphore counter, not
the configured limit its own comment ("80% de la capacité maximale") names. -/
def OllamaInstance.is_overloaded (s : OllamaInstance) : Bool :=
  if (s.semValue : ℚ) * 0.8 ≤ (s.active_requests : ℚ) then true
  else if 5 < s.total_requests ∧ (10 : ℚ) < s.last_response_time then true
  else if 5 < s.total_requests ∧
      (0.3 : ℚ) < (s.failed_requests : ℚ) / (s.total_requests : ℚ) then true
  else false

/-- `OllamaInstance.get_health_score`: sequential penalty subtraction exactly
as in the source (`score = 100; score -= ...; return max(0, score)`).  Note the
latency penalty is applied only under `avg_time > 10`, and the load penalty
divides by `semaphore._value`, not by the configured limit. -/
def OllamaInstance.get_health_score (s : OllamaInstance) : ℚ :=
  if ¬ s.is_available then 0
  else
    let score : ℚ := 100
    let score : ℚ :=
      if 0 < s.semValue then score - (s.active_requests : ℚ) / (s.semValue : ℚ) * 40 else score
    let score : ℚ :=
      if 0 < s.total_requests then
        let avg_time := s.get_average_response_time
        if 10 < avg_time then score - min 30 (avg_time / 2) else score
      else score
    let score : ℚ :=
      if 0 < s.total_requests then
        score - (s.failed_requests : ℚ) / (s.total_requests : ℚ) * 30
      else score
    max 0 score

/-- Client state from `OllamaClient.__init__`: the instance list, the
configured per-instance concurrency limit, the load-balancing strategy string
and the persistent round-robin cursor. -/
structure OllamaClient where
  instances : List OllamaInstance
  max_concurrent_requests : Nat
  load_balancing_strategy : String
  current_instance_index : Nat
deriving DecidableEq, Repr

/-- `OllamaClient.get_available_instances`. -/
def OllamaClient.get_available_instances (c : OllamaClient) : List OllamaInstance :=
  c.instances.filter (fun i => i.is_available)

/-- `OllamaClient.get_instance_for_model`: keeps an available instance when its
model list is empty (`not instance.models`) *or* contains the model, falling
back to all available instances when that filter is empty. -/
def OllamaClient.get_instance_for_model (c : OllamaClient) (model_name : String) :
    List OllamaInstance :=
  let available_instances := c.get_available_instances
  let instances_with_model :=
    available_instances.filter (fun i => i.models.isEmpty || i.models.contains model_name)
  if instances_with_model.isEmpty then available_instances else instances_with_model

/-- The spec sentence behind claim C3, written from its words: overloaded iff
`activeRequests ≥ 0.8 * concurrencyLimit`, or more than 5 requests with last
latency above 10 s, or more than 5 requests with failure rate above 0.3. -/
def specIsOverloaded (concurrencyLimit : ℚ) (s : OllamaInstance) : Bool :=
  ((0.8 : ℚ) * concurrencyLimit ≤ (s.active_requests : ℚ)) ||
  (decide (5 < s.total_requests) && decide ((10 : ℚ) < s.last_response_time)) ||
  (decide (5 < s.total_requests) &&
    decide ((0.3 : ℚ) < (s.failed_requests : ℚ) / (s.total_requests : ℚ)))

/-- The claim C4 health-score formula, written from the claim's words: the
latency penalty `min(30, avg/2)` is charged for *every* positive average
latency whenever `totalRequests > 0`, and the load penalty divides by the
configured concurrency limit. -/
def claimedHealthScore (concurrencyLimit : ℚ) (s : OllamaInstance) : ℚ :=
  let p_lat : ℚ :=
    if 0 < s.total_requests then min 30 (s.get_average_response_time / 2) else 0
  let p_rel : ℚ :=
    if 0 < s.total_requests then 30 * ((s.failed_requests : ℚ) / (s.total_requests : ℚ)) else 0
  max 0 (100 - 40 * ((s.active_requests : ℚ) / concurrencyLimit) - p_lat - p_rel)

/-- Closed-form restatement of what `get_health_score` actually computes,
used for the amended claim C4. -/
def amendedHealthScore (s : OllamaInstance) : ℚ :=
  if ¬ s.is_available then 0
  else
    let load_penalty : ℚ :=
      if 0 < s.semValue then (s.active_requests : ℚ) / (s.semValue : ℚ) * 40 else 0
    let latency_penalty : ℚ :=
      if 0 < s.total_requests ∧ 10 < s.get_average_response_time then
        min 30 (s.get_average_response_time / 2)
      else 0
    let reliability_penalty : ℚ :=
      if 0 < s.total_requests then (s.failed_requests : ℚ) / (s.total_requests : ℚ) * 30 else 0
    max 0 (100 - load_penalty - latency_penalty - reliability_penalty)

/-- An instance with two calls in flight against a configured limit of 3
(so the semaphore counter stands at 1) and no completed requests. -/
def c3Inst : OllamaInstance :=
  { url := "http://one"
    active_requests := 2
    total_requests := 0
    failed_requests := 0
    total_processing_time := 0
    last_response_time := 0
    is_available := true
    models := []
    semValue := 1 }

/-- C3: with limit 3 and two calls in flight (semaphore counter 1, which is
exactly `3 - active_requests`), the code declares the instance overloaded
(2 ≥ 0.8·1) while the claimed predicate does not (2 < 0.8·3 = 2.4): the code
tests 80% of the semaphore's current value, not of the configured limit its
own comment names. -/
theorem C3_overload_uses_semaphore_value :
    c3Inst.is_overloaded = true ∧ specIsOverloaded 3 c3Inst = false ∧
      c3Inst.semValue = 3 - c3Inst.active_requests := by
  refine ⟨?_, ?_, by decide⟩
  · norm_num [OllamaInstance.is_overloaded, c3Inst]
  · norm_num [specIsOverloaded, c3Inst]

/-- An available instance with one completed 4-second request and nothing in
flight (semaphore counter = configured limit = 3). -/
def c4Inst : OllamaInstance :=
  { url := "http://one"
    active_requests := 0
    total_requests := 1
    failed_requests := 0
    total_processing_time := 4
    last_response_time := 4
    is_available := true
    models := []
    semValue := 3 }

/-- C4 counterexample: with average latency 4 s the claim charges the latency
penalty `min(30, 4/2) = 2` and predicts a score of 98, but the code applies
that penalty only when the average exceeds 10 s and returns 100. -/
theorem C4_latency_penalty_cex :
    c4Inst.get_health_score = 100 ∧ claimedHealthScore 3 c4Inst = 98 := by
  constructor
  · norm_num [OllamaInstance.get_health_score, OllamaInstance.get_average_response_time, c4Inst]
  · norm_num [claimedHealthScore, OllamaInstance.get_average_response_time, c4Inst, min_def]

/-- C4 amended: `get_health_score` equals the closed form with load penalty
`40·active/semValue` (for the semaphore's current value, when positive),
latency penalty `min(30, avg/2)` only when `totalRequests > 0` and the average
exceeds 10 s, and reliability penalty `30·failed/total` when
`totalRequests > 0`; unavailable instances score 0. -/
theorem C4_health_score_amended (s : OllamaInstance) :
    s.get_health_score = amendedHealthScore s := by
  unfold OllamaInstance.get_health_score amendedHealthScore
  by_cases hav : s.is_available
  · simp only [hav, not_true, if_false, Bool.not_true]
    by_cases h1 : 0 < s.semValue <;>
      by_cases h2 : 0 < s.total_requests <;>
        by_cases h3 : (10 : ℚ) < s.get_average_response_time <;>
          simp [h1, h2, h3]
  · simp [hav]

/-- Two available instances: `c7A` advertises model `m`, `c7B` has an empty
model list. -/
def c7A : OllamaInstance :=
  { url := "http://a", active_requests := 0, total_requests := 0, failed_requests := 0,
    total_processing_time := 0, last_response_time := 0, is_available := true,
    models := ["m"], semValue := 3 }

/-- Companion instance for the C7 counterexample. -/
def c7B : OllamaInstance :=
  { url := "http://b", active_requests := 0, total_requests := 0, failed_requests := 0,
    total_processing_time := 0, last_response_time := 0, is_available := true,
    models := [], semValue := 3 }

/-- Client holding `c7A` and `c7B`. -/
def c7Client : OllamaClient :=
  { instances := [c7A, c7B], max_concurrent_requests := 3,
    load_balancing_strategy := "round_robin", current_instance_index := 0 }

/-- C7 counterexample: although `c7A` advertises `m` explicitly, the selection
also returns `c7B`, whose model list is empty and does not contain `m` — so
the result is the full available set even though an instance advertises `m`,
contradicting both halves of the claim. -/
theorem C7_empty_models_cex :
    c7Client.get_instance_for_model "m" = [c7A, c7B] ∧
      c7B.models.contains "m" = false ∧ c7A.models.contains "m" = true := by
  refine ⟨?_, by decide, by decide⟩
  simp [c7Client, OllamaClient.get_instance_for_model, OllamaClient.get_available_instances,
    c7A, c7B]

/-- The filter the code really applies for claim C7: empty model list counts
as "possibly serves the model". -/
def servesModel (m : String) (i : OllamaInstance) : Bool :=
  i.models.isEmpty || i.models.contains m

/-- C7 amended: an instance is in `get_instance_for_model c m` iff it is
available and either passes the real filter (empty model list or `m` listed)
or no available instance at all passes that filter (the fallback case). -/
theorem C7_model_filter_amended (c : OllamaClient) (m : String) (i : OllamaInstance) :
    i ∈ c.get_instance_for_model m ↔
      (i ∈ c.get_available_instances ∧
        (servesModel m i = true ∨ ∀ j ∈ c.get_available_instances, servesModel m j = false)) := by
  have hpred : ∀ j : OllamaInstance,
      (j.models.isEmpty || j.models.contains m) = servesModel m j := fun _ => rfl
  unfold OllamaClient.get_instance_for_model
  by_cases h : (c.get_available_instances.filter
      (fun j => j.models.isEmpty || j.models.contains m)) = []
  · have hall : ∀ j ∈ c.get_available_instances, servesModel m j = false := by
      intro j hj
      have := List.filter_eq_nil_iff.mp h j hj
      rw [hpred] at this
      simpa using this
    rw [if_pos (List.isEmpty_iff.mpr h)]
    exact ⟨fun hi => ⟨hi, Or.inr hall⟩, fun ⟨h1, _⟩ => h1⟩
  · rw [if_neg (by simpa [List.isEmpty_iff] using h)]
    constructor
    · intro hi
      rcases List.mem_filter.mp hi with ⟨h1, h2⟩
      exact ⟨h1, Or.inl (by rw [← hpred]; exact h2)⟩
    · rintro ⟨h1, h2 | h2⟩
      · exact List.mem_filter.mpr ⟨h1, by rw [hpred]; exact h2⟩
      · exfalso
        rcases List.exists_mem_of_ne_nil _ h with ⟨j, hj⟩
        rcases List.mem_filter.mp hj with ⟨hj1, hj2⟩
        rw [hpred] at hj2
        rw [h2 j hj1] at hj2
        exact Bool.false_ne_true hj2

/-! ## Instance selection (`OllamaClient._select_instance`) -/

/-- Junk pair used as the (never consulted) default of positional list reads;
every read below is guarded by a positive length. -/
def dfltPair : Nat × OllamaInstance :=
  (0, { url := "", active_requests := 0, total_requests := 0, failed_requests := 0,
        total_processing_time := 0, last_response_time := 0, is_available := false,
        models := [], semValue := 0 })

/-- Python's `_select_instance` hands object references back to its caller;
the embedding tracks positions into `c.instances` instead, so the available
set is the enumerated list filtered on `is_available`
(`get_available_instances` with indices). -/
def OllamaClient.availableIdx (c : OllamaClient) : List (Nat × OllamaInstance) :=
  c.instances.enum.filter (fun p => p.2.is_available)

/-- `get_instance_for_model`, index-carrying form used by `_select_instance`. -/
def OllamaClient.instancesForModelIdx (c : OllamaClient) (model_name : String) :
    List (Nat × OllamaInstance) :=
  let available_instances := c.availableIdx
  let instances_with_model :=
    available_instances.filter (fun p => p.2.models.isEmpty || p.2.models.contains model_name)
  if instances_with_model.isEmpty then available_instances else instances_with_model

/-- Python's `min(instances_to_use, key=lambda x: x.active_requests)`: the
first element attaining the minimal key. -/
def minByActive (h : Nat × OllamaInstance) (t : List (Nat × OllamaInstance)) :
    Nat × OllamaInstance :=
  t.foldl (fun best p => if p.2.active_requests < best.2.active_requests then p else best) h

/-- Python's `min(instances_with_history, key=lambda x: x.get_average_response_time())`. -/
def minByAvg (h : Nat × OllamaInstance) (t : List (Nat × OllamaInstance)) :
    Nat × OllamaInstance :=
  t.foldl (fun best p =>
    if p.2.get_average_response_time < best.2.get_average_response_time then p else best) h

/-- Python sorts `(instance, score)` pairs by score descending with a stable
sort and takes the head: the first element attaining the maximal score. -/
def maxByScore (h : Nat × OllamaInstance) (t : List (Nat × OllamaInstance)) :
    Nat × OllamaInstance :=
  t.foldl (fun best p =>
    if best.2.get_health_score < p.2.get_health_score then p else best) h

/-- `OllamaClient._select_instance`: restrict to the model-serving available
instances (or all available ones when no model is given), drop overloaded
instances unless that would leave nothing (the source then sleeps 2 s, a
no-op here), and pick per strategy.  Returns the position of the selected
instance in `c.instances` and the updated client (only the round-robin cursor
ever changes).  `rand` supplies `random.choice`; logging is dropped. -/
def OllamaClient._select_instance (c : OllamaClient) (model_name : Option String) (rand : Nat) :
    Option Nat × OllamaClient :=
  let available_instances :=
    match model_name with
    | some m => c.instancesForModelIdx m
    | none => c.availableIdx
  if available_instances.isEmpty then (none, c)
  else
    let healthy_instances := available_instances.filter (fun p => !p.2.is_overloaded)
    let instances_to_use :=
      if healthy_instances.isEmpty then available_instances else healthy_instances
    if c.load_balancing_strategy = "round_robin" then
      let p := instances_to_use.getD (c.current_instance_index % instances_to_use.length) dfltPair
      (some p.1, { c with current_instance_index := c.current_instance_index + 1 })
    else if c.load_balancing_strategy = "least_busy" then
      match instances_to_use with
      | [] => (none, c)
      | h :: t => (some (minByActive h t).1, c)
    else if c.load_balancing_strategy = "fastest" then
      match instances_to_use.filter (fun p => 0 < p.2.total_requests) with
      | h :: t => (some (minByAvg h t).1, c)
      | [] =>
        let p :=
          instances_to_use.getD (c.current_instance_index % instances_to_use.length) dfltPair
        (some p.1, { c with current_instance_index := c.current_instance_index + 1 })
    else if c.load_balancing_strategy = "health_based" then
      match instances_to_use with
      | h :: t => (some (maxByScore h t).1, c)
      | [] =>
        let p :=
          instances_to_use.getD (c.current_instance_index % instances_to_use.length) dfltPair
        (some p.1, { c with current_instance_index := c.current_instance_index + 1 })
    else
      (some (instances_to_use.getD (rand % instances_to_use.length) dfltPair).1, c)

/-- `n` consecutive `_select_instance` calls (no model restriction, as in the
claim's scenario), collecting the chosen positions. -/
def selectRun (c : OllamaClient) : Nat → List (Option Nat) × OllamaClient
  | 0 => ([], c)
  | n + 1 =>
    let r := c._select_instance none 0
    let rest := selectRun r.2 n
    (r.1 :: rest.1, rest.2)

/-- With every instance available and none overloaded, the available set is
the whole enumerated instance list. -/
theorem availableIdx_of_all_available (c : OllamaClient)
    (hall : ∀ i ∈ c.instances, i.is_available = true) :
    c.availableIdx = c.instances.enum := by
  unfold OllamaClient.availableIdx
  exact List.filter_eq_self.mpr (List.forall_mem_enum.mpr fun i h =>
    hall _ (List.getElem_mem h))

/-- One round-robin selection under the claim C8 scenario: every instance
available and non-overloaded, strategy `round_robin`.  The selected position
is the cursor modulo the instance count and the cursor advances by one. -/
theorem select_instance_round_robin (c : OllamaClient)
    (hstrat : c.load_balancing_strategy = "round_robin")
    (h0 : 0 < c.instances.length)
    (hall : ∀ i ∈ c.instances, i.is_available = true ∧ i.is_overloaded = false) :
    c._select_instance none 0 =
      (some (c.current_instance_index % c.instances.length),
        { c with current_instance_index := c.current_instance_index + 1 }) := by
  have hav : c.availableIdx = c.instances.enum :=
    availableIdx_of_all_available c (fun i h => (hall i h).1)
  have hhealthy : c.instances.enum.filter (fun p => !p.2.is_overloaded) = c.instances.enum :=
    List.filter_eq_self.mpr (List.forall_mem_enum.mpr fun i h => by
      simp [(hall _ (List.getElem_mem h)).2])
  have hlen : c.instances.enum.length = c.instances.length := List.enum_length
  have hne : c.instances.enum.isEmpty = false := by
    rw [List.isEmpty_eq_false]
    intro hnil
    rw [← hlen, hnil] at h0
    simp at h0
  have h2 : c.current_instance_index % c.instances.length < c.instances.length :=
    Nat.mod_lt _ h0
  unfold OllamaClient._select_instance
  rw [hav]
  simp [hne, hhealthy, hstrat, List.enum_length]
  rw [List.getElem?_eq_getElem h2]
  simp

/-- Running `n` round-robin selections from cursor `i0` yields positions
`i0 % N, (i0+1) % N, …` and leaves the cursor at `i0 + n`. -/
theorem selectRun_round_robin (n : Nat) :
    ∀ c : OllamaClient,
      c.load_balancing_strategy = "round_robin" →
      0 < c.instances.length →
      (∀ i ∈ c.instances, i.is_available = true ∧ i.is_overloaded = false) →
      selectRun c n =
        ((List.range n).map
            (fun k => some ((c.current_instance_index + k) % c.instances.length)),
          { c with current_instance_index := c.current_instance_index + n }) := by
  induction n with
  | zero => intro c _ _ _; simp [selectRun]
  | succ n ih =>
    intro c hstrat h0 hall
    have hsel := select_instance_round_robin c hstrat h0 hall
    have hstep := ih { c with current_instance_index := c.current_instance_index + 1 }
      hstrat h0 hall
    simp only [selectRun, hsel, hstep]
    rw [Prod.mk.injEq]
    refine ⟨?_, ?_⟩
    · rw [List.range_succ_eq_map, List.map_cons, List.map_map]
      refine congrArg₂ List.cons (by simp) ?_
      apply List.map_congr_left
      intro k _
      simp only [Function.comp_apply, Nat.succ_eq_add_one]
      have hk : c.current_instance_index + 1 + k = c.current_instance_index + (k + 1) := by
        omega
      rw [hk]
    · have hnum : c.current_instance_index + 1 + n = c.current_instance_index + (n + 1) := by
        omega
      simp only [hnum]

/-- Every residue below `N` is hit by `k ↦ (i0 + k) % N` for some `k < N`. -/
theorem add_mod_cover (i0 N j : Nat) (hN : 0 < N) (hj : j < N) :
    ∃ k < N, (i0 + k) % N = j := by
  have hdm := Nat.div_add_mod i0 N
  have hrN : i0 % N < N := Nat.mod_lt _ hN
  rcases le_or_lt (i0 % N) j with h | h
  · refine ⟨j - i0 % N, by omega, ?_⟩
    have heq : i0 + (j - i0 % N) = j + N * (i0 / N) := by omega
    rw [heq, Nat.add_mul_mod_self_left]
    exact Nat.mod_eq_of_lt hj
  · refine ⟨j + N - i0 % N, by omega, ?_⟩
    have heq : i0 + (j + N - i0 % N) = j + N * (i0 / N + 1) := by
      have : N * (i0 / N + 1) = N * (i0 / N) + N := by ring
      omega
    rw [heq, Nat.add_mul_mod_self_left]
    exact Nat.mod_eq_of_lt hj

/-- `k ↦ (i0 + k) % N` is injective below `N`. -/
theorem add_mod_inj (i0 N a b : Nat) (ha : a < N) (hb : b < N)
    (h : (i0 + a) % N = (i0 + b) % N) : a = b := by
  have hmod : a ≡ b [MOD N] := Nat.ModEq.add_left_cancel' i0 h
  unfold Nat.ModEq at hmod
  rw [Nat.mod_eq_of_lt ha, Nat.mod_eq_of_lt hb] at hmod
  exact hmod

/-- C8: with a fixed list of `N` available, non-overloaded instances under the
`round_robin` strategy, `N` consecutive selections return the positions
`(cursor + k) % N`, which are pairwise distinct and cover every position — so
every instance is chosen exactly once before any repeats; the cursor simply
advances by one per call (never reset), and reassigning the strategy field (a
strategy switch) leaves the cursor untouched. -/
theorem C8_round_robin_cycle (c : OllamaClient) (N : Nat)
    (hN : c.instances.length = N)
    (h0 : 0 < N)
    (hstrat : c.load_balancing_strategy = "round_robin")
    (hall : ∀ i ∈ c.instances, i.is_available = true ∧ i.is_overloaded = false) :
    (selectRun c N).1 =
        (List.range N).map (fun k => some ((c.current_instance_index + k) % N)) ∧
      ((List.range N).map (fun k => (c.current_instance_index + k) % N)).Nodup ∧
      (∀ j < N, ∃ k < N, (c.current_instance_index + k) % N = j) ∧
      (selectRun c N).2.current_instance_index = c.current_instance_index + N ∧
      (∀ str, ({ c with load_balancing_strategy := str } : OllamaClient).current_instance_index
          = c.current_instance_index) := by
  have hrun := selectRun_round_robin N c hstrat (hN ▸ h0) hall
  refine ⟨?_, ?_, ?_, ?_, fun _ => rfl⟩
  · rw [hrun, hN]
  · exact (List.nodup_range N).map_on
      (fun a ha b hb h =>
        add_mod_inj c.current_instance_index N a b
          (List.mem_range.mp ha) (List.mem_range.mp hb) h)
  · exact fun j hj => add_mod_cover c.current_instance_index N j h0 hj
  · rw [hrun]

/-! ## `OllamaClient.generate` and `OllamaClient.chat` -/

/-- What one attempt's network interaction does, supplied as an oracle: the
semaphore acquire times out after 30 s, or the `requests.post` returns
HTTP 200 with a payload after `t` seconds, returns a non-200 status after `t`
seconds, or raises a transport exception after `t` seconds. -/
inductive AttemptOutcome where
  | acquireTimeout : AttemptOutcome
  | httpOk : String → ℚ → AttemptOutcome
  | httpError : ℚ → AttemptOutcome
  | transportExn : ℚ → AttemptOutcome
deriving DecidableEq, Repr

/-- Apply `f` to the instance at position `i` (the embedding of mutating the
shared instance object returned by `_select_instance`). -/
def OllamaClient.updateInstanceAt (c : OllamaClient) (i : Nat)
    (f : OllamaInstance → OllamaInstance) : OllamaClient :=
  { c with instances := c.instances.enum.map (fun p => if p.1 = i then f p.2 else p.2) }

/-- Successful attempt, as executed by `generate`/`chat`: `semaphore.acquire`
(counter down), `active_requests += 1`, `update_stats(True, t)` on HTTP 200,
then the `finally` block: `active_requests -= 1`, `semaphore.release`. -/
def okAttempt (t : ℚ) (s : OllamaInstance) : OllamaInstance :=
  let s := { s with semValue := s.semValue - 1 }
  let s := { s with active_requests := s.active_requests + 1 }
  let s := s.update_stats true t
  let s := { s with active_requests := s.active_requests - 1 }
  { s with semValue := s.semValue + 1 }

/-- Non-200-status attempt: acquire, `active_requests += 1`,
`update_stats(False, t)`, then the `finally` block releases once. -/
def httpErrorAttempt (t : ℚ) (s : OllamaInstance) : OllamaInstance :=
  let s := { s with semValue := s.semValue - 1 }
  let s := { s with active_requests := s.active_requests + 1 }
  let s := s.update_stats false t
  let s := { s with active_requests := s.active_requests - 1 }
  { s with semValue := s.semValue + 1 }

/-- Transport-exception attempt: acquire, `active_requests += 1`, the
`requests.post` raises, the inner `finally` decrements and releases, and then
the outer `except` handler records the failure and decrements/releases *a
second time* — exactly the statement order of `generate`'s exception path. -/
def transportExnAttempt (t : ℚ) (s : OllamaInstance) : OllamaInstance :=
  let s := { s with semValue := s.semValue - 1 }
  let s := { s with active_requests := s.active_requests + 1 }
  let s := { s with active_requests := s.active_requests - 1 }
  let s := { s with semValue := s.semValue + 1 }
  let s := s.update_stats false t
  let s := { s with active_requests := s.active_requests - 1 }
  { s with semValue := s.semValue + 1 }

/-- The retry loop shared verbatim by `generate` and `chat` (`while retries <
max_retries`): select an instance (abort with `None` when there is none),
consult the oracle for attempt number `attempt`, apply the corresponding
per-instance transition, and return the payload on success or loop otherwise.
The remaining-retries budget `max_retries - retries` is the first argument:
every non-returning iteration increments `retries` by exactly one. -/
def requestLoop (oracle : Nat → AttemptOutcome) (model : String) :
    Nat → Nat → OllamaClient → Option String × OllamaClient
  | 0, _, c => (none, c)
  | fuel + 1, attempt, c =>
    match c._select_instance (some model) 0 with
    | (none, c1) => (none, c1)
    | (some i, c1) =>
      match oracle attempt with
      | .acquireTimeout => requestLoop oracle model fuel (attempt + 1) c1
      | .httpOk resp t => (some resp, c1.updateInstanceAt i (okAttempt t))
      | .httpError t =>
        requestLoop oracle model fuel (attempt + 1) (c1.updateInstanceAt i (httpErrorAttempt t))
      | .transportExn t =>
        requestLoop oracle model fuel (attempt + 1)
          (c1.updateInstanceAt i (transportExnAttempt t))

/-- `OllamaClient.generate(model, prompt, ..., max_retries, ...)`: the prompt,
temperature and timeout only shape the HTTP payload, which the oracle answers;
the control flow and state updates are `requestLoop`. -/
def OllamaClient.generate (c : OllamaClient) (model : String) (max_retries : Nat)
    (oracle : Nat → AttemptOutcome) : Option String × OllamaClient :=
  requestLoop oracle model max_retries 0 c

/-- `OllamaClient.chat(model, messages, ..., max_retries, ...)`: its loop body
is statement-for-statement the one of `generate` (only the URL path, payload
shape and response-field extraction differ, all absorbed by the oracle). -/
def OllamaClient.chat (c : OllamaClient) (model : String) (max_retries : Nat)
    (oracle : Nat → AttemptOutcome) : Option String × OllamaClient :=
  requestLoop oracle model max_retries 0 c

/-- Freshly constructed instance (zeroed counters) with the semaphore at the
configured limit, as built by `OllamaClient.__init__`. -/
def freshInst (url : String) (limit : Int) : OllamaInstance :=
  { url := url, active_requests := 0, total_requests := 0, failed_requests := 0,
    total_processing_time := 0, last_response_time := 0, is_available := true,
    models := [], semValue := limit }

/-- Selecting for a model on a single-available-instance client always yields
that instance (position 0) and advances the round-robin cursor: whether or not
the model filter or the overload filter keeps it, every fallback path lands on
the same singleton list. -/
theorem select_instance_single (inst : OllamaInstance) (mcr idx : Nat) (m : String)
    (hav : inst.is_available = true) :
    ({ instances := [inst], max_concurrent_requests := mcr,
       load_balancing_strategy := "round_robin", current_instance_index := idx } :
        OllamaClient)._select_instance (some m) 0 =
      (some 0,
        { instances := [inst], max_concurrent_requests := mcr,
          load_balancing_strategy := "round_robin", current_instance_index := idx + 1 }) := by
  have henum : ([inst] : List OllamaInstance).enum = [(0, inst)] := rfl
  unfold OllamaClient._select_instance OllamaClient.instancesForModelIdx
    OllamaClient.availableIdx
  simp only [henum, List.filter_cons, List.filter_nil, hav, if_true, ite_true]
  rcases hb : (inst.models.isEmpty || inst.models.contains m) with _ | _ <;>
    rcases ho : inst.is_overloaded with _ | _ <;>
      simp only [hb, ho, Bool.not_false, Bool.not_true, if_true, if_false, ite_true, ite_false,
        List.isEmpty_nil, List.isEmpty_cons, Nat.mod_one, List.getD] <;>
      simp [ho, Nat.mod_one, List.filter_cons, List.filter_nil]

/-- Updating position 0 of a singleton client rewrites its only instance. -/
theorem updateInstanceAt_singleton (inst : OllamaInstance) (mcr strat idx)
    (f : OllamaInstance → OllamaInstance) :
    ({ instances := [inst], max_concurrent_requests := mcr,
       load_balancing_strategy := strat, current_instance_index := idx } :
        OllamaClient).updateInstanceAt 0 f =
      { instances := [f inst], max_concurrent_requests := mcr,
        load_balancing_strategy := strat, current_instance_index := idx } := by
  simp [OllamaClient.updateInstanceAt, List.enum, List.enumFrom]

/-- Field effect of a non-200 attempt: one more total, one more failure,
availability (and the model list) untouched. -/
theorem httpErrorAttempt_fields (t : ℚ) (s : OllamaInstance) :
    (httpErrorAttempt t s).total_requests = s.total_requests + 1 ∧
      (httpErrorAttempt t s).failed_requests = s.failed_requests + 1 ∧
      (httpErrorAttempt t s).is_available = s.is_available := by
  refine ⟨rfl, rfl, rfl⟩

/-- Field effect of a transport-exception attempt: one more total, one more
failure, availability untouched (the double decrement/release hits only
`active_requests` and the semaphore counter). -/
theorem transportExnAttempt_fields (t : ℚ) (s : OllamaInstance) :
    (transportExnAttempt t s).total_requests = s.total_requests + 1 ∧
      (transportExnAttempt t s).failed_requests = s.failed_requests + 1 ∧
      (transportExnAttempt t s).is_available = s.is_available := by
  refine ⟨rfl, rfl, rfl⟩

/-- An attempt outcome in which the HTTP request was made and failed (non-200
status or transport exception). -/
def isFailedHttp : AttemptOutcome → Prop
  | .httpError _ => True
  | .transportExn _ => True
  | _ => False

/-- When every attempt's HTTP request fails, the retry loop on a
single-available-instance client exhausts its budget, returns `None`, and adds
one total and one failed request per remaining retry. -/
theorem requestLoop_all_fail (oracle : Nat → AttemptOutcome) (m : String)
    (hfail : ∀ k, isFailedHttp (oracle k)) :
    ∀ (fuel attempt : Nat) (inst : OllamaInstance) (mcr idx : Nat),
      inst.is_available = true →
      ∃ inst' : OllamaInstance,
        requestLoop oracle m fuel attempt
            { instances := [inst], max_concurrent_requests := mcr,
              load_balancing_strategy := "round_robin", current_instance_index := idx } =
          (none, { instances := [inst'], max_concurrent_requests := mcr,
                   load_balancing_strategy := "round_robin",
                   current_instance_index := idx + fuel }) ∧
        inst'.is_available = true ∧
        inst'.total_requests = inst.total_requests + fuel ∧
        inst'.failed_requests = inst.failed_requests + fuel := by
  intro fuel
  induction fuel with
  | zero =>
    intro attempt inst mcr idx hav
    exact ⟨inst, by simp [requestLoop], hav, by simp, by simp⟩
  | succ fuel ih =>
    intro attempt inst mcr idx hav
    have hsel := select_instance_single inst mcr idx m hav
    cases hoc : oracle attempt with
    | acquireTimeout =>
      have := hfail attempt
      rw [hoc] at this
      exact absurd this (by simp [isFailedHttp])
    | httpOk r t =>
      have := hfail attempt
      rw [hoc] at this
      exact absurd this (by simp [isFailedHttp])
    | httpError t =>
      obtain ⟨inst', h1, h2, h3, h4⟩ :=
        ih (attempt + 1) (httpErrorAttempt t inst) mcr (idx + 1)
          (by rw [(httpErrorAttempt_fields t inst).2.2]; exact hav)
      refine ⟨inst', ?_, h2, ?_, ?_⟩
      · show requestLoop oracle m (fuel + 1) attempt _ = _
        rw [requestLoop, hsel]
        simp only [hoc, updateInstanceAt_singleton, h1]
        have : idx + 1 + fuel = idx + (fuel + 1) := by omega
        rw [this]
      · rw [h3, (httpErrorAttempt_fields t inst).1]
        omega
      · rw [h4, (httpErrorAttempt_fields t inst).2.1]
        omega
    | transportExn t =>
      obtain ⟨inst', h1, h2, h3, h4⟩ :=
        ih (attempt + 1) (transportExnAttempt t inst) mcr (idx + 1)
          (by rw [(transportExnAttempt_fields t inst).2.2]; exact hav)
      refine ⟨inst', ?_, h2, ?_, ?_⟩
      · show requestLoop oracle m (fuel + 1) attempt _ = _
        rw [requestLoop, hsel]
        simp only [hoc, updateInstanceAt_singleton, h1]
        have : idx + 1 + fuel = idx + (fuel + 1) := by omega
        rw [this]
      · rw [h3, (transportExnAttempt_fields t inst).1]
        omega
      · rw [h4, (transportExnAttempt_fields t inst).2.1]
        omega

/-- C5: if every attempted HTTP request fails, `generate` makes at most
`max_retries` attempts and returns `None` (a value, not an exception — the
embedding is a total function), and an instance that served only these failed
attempts from zeroed counters ends with `failed_requests = total_requests`. -/
theorem C5_generate_failure_exhausts_retries (inst : OllamaInstance)
    (mcr idx max_retries : Nat) (m : String) (oracle : Nat → AttemptOutcome)
    (hav : inst.is_available = true)
    (htot : inst.total_requests = 0) (hfailed : inst.failed_requests = 0)
    (hfail : ∀ k, isFailedHttp (oracle k)) :
    ∃ inst' : OllamaInstance,
      ({ instances := [inst], max_concurrent_requests := mcr,
         load_balancing_strategy := "round_robin", current_instance_index := idx } :
          OllamaClient).generate m max_retries oracle =
        (none, { instances := [inst'], max_concurrent_requests := mcr,
                 load_balancing_strategy := "round_robin",
                 current_instance_index := idx + max_retries }) ∧
      inst'.failed_requests = inst'.total_requests ∧
      inst'.total_requests ≤ max_retries := by
  obtain ⟨inst', h1, _, h3, h4⟩ :=
    requestLoop_all_fail oracle m hfail max_retries 0 inst mcr idx hav
  exact ⟨inst', h1, by rw [h3, h4, htot, hfailed], by rw [h3, htot]; omega⟩

/-- C5 witness: limit 3, cursor 0, `max_retries = 3`, every attempt an
HTTP 500 after 1 s. -/
theorem C5_witness_http500 :
    ∃ inst' : OllamaInstance,
      ({ instances := [freshInst "http://one" 3], max_concurrent_requests := 3,
         load_balancing_strategy := "round_robin", current_instance_index := 0 } :
          OllamaClient).generate "m" 3 (fun _ => .httpError 1) =
        (none, { instances := [inst'], max_concurrent_requests := 3,
                 load_balancing_strategy := "round_robin",
                 current_instance_index := 0 + 3 }) ∧
      inst'.failed_requests = inst'.total_requests ∧
      inst'.total_requests ≤ 3 :=
  C5_generate_failure_exhausts_retries (freshInst "http://one" 3) 3 0 3 "m"
    (fun _ => .httpError 1) rfl rfl rfl (fun _ => trivial)

/-- Client as built by `OllamaClient.__init__` for one URL with the default
concurrency limit 3: one fresh instance, semaphore counter 3. -/
def c1Client : OllamaClient :=
  { instances := [freshInst "http://one" 3], max_concurrent_requests := 3,
    load_balancing_strategy := "round_robin", current_instance_index := 0 }

/-- C1: a single `generate` (or `chat`) call whose HTTP request raises a
transport exception leaves `active_requests = -1 < 0` and the semaphore
counter at 4 > 3 = limit: the inner `finally` block and the outer `except`
handler each decrement the counter and release the semaphore, so one acquire
is matched by two releases and the gate can thereafter admit `L + 1`
concurrent calls. -/
theorem C1_transport_exception_double_release :
    ((c1Client.generate "m" 1 (fun _ => .transportExn 1)).2.instances.map
        (fun s => (s.active_requests, s.semValue)) = [(-1, 4)]) ∧
    ((c1Client.chat "m" 1 (fun _ => .transportExn 1)).2.instances.map
        (fun s => (s.active_requests, s.semValue)) = [(-1, 4)]) ∧
    (c1Client.instances.map (fun s => (s.active_requests, s.semValue)) = [(0, 3)]) := by
  have hsel := select_instance_single (freshInst "http://one" 3) 3 0 "m" rfl
  have hrun : requestLoop (fun _ => AttemptOutcome.transportExn 1) "m" 1 0 c1Client =
      (none, { instances := [transportExnAttempt 1 (freshInst "http://one" 3)],
               max_concurrent_requests := 3, load_balancing_strategy := "round_robin",
               current_instance_index := 1 }) := by
    simp only [c1Client, requestLoop, hsel, updateInstanceAt_singleton]
  refine ⟨?_, ?_, by decide⟩ <;>
    · simp only [OllamaClient.generate, OllamaClient.chat, hrun]
      simp [transportExnAttempt, OllamaInstance.update_stats, freshInst]

/-- Three fresh instances, round-robin strategy, cursor already at 1. -/
def c8Client : OllamaClient :=
  { instances := [freshInst "http://a" 3, freshInst "http://b" 3, freshInst "http://c" 3],
    max_concurrent_requests := 3, load_balancing_strategy := "round_robin",
    current_instance_index := 1 }

/-- C8 witness: three healthy instances, cursor 1 — the three selections are
positions 1, 2, 0, each exactly once, and the cursor ends at 4. -/
theorem C8_witness_three_instances :
    (selectRun c8Client 3).1 =
        (List.range 3).map (fun k => some ((c8Client.current_instance_index + k) % 3)) ∧
      ((List.range 3).map (fun k => (c8Client.current_instance_index + k) % 3)).Nodup ∧
      (∀ j < 3, ∃ k < 3, (c8Client.current_instance_index + k) % 3 = j) ∧
      (selectRun c8Client 3).2.current_instance_index = c8Client.current_instance_index + 3 ∧
      (∀ str, ({ c8Client with load_balancing_strategy := str } :
          OllamaClient).current_instance_index = c8Client.current_instance_index) :=
  C8_round_robin_cycle c8Client 3 rfl (by decide) rfl (by
    intro i hi
    have hov : ∀ u, (freshInst u 3).is_overloaded = false := fun u => by
      norm_num [OllamaInstance.is_overloaded, freshInst]
    have h3 : i = freshInst "http://a" 3 ∨ i = freshInst "http://b" 3 ∨
        i = freshInst "http://c" 3 := by
      simpa [c8Client] using hi
    rcases h3 with h | h | h <;> subst h <;> exact ⟨rfl, hov _⟩)

/-! ## The adaptive batch loop of `ImageProcessor.process_directory` -/

/-- What `process_image` reports for one path, as consumed by the batch loop:
`("SKIPPED", None)` (cache or existing XMP), `(True, t)` (processed in `t`
seconds), or `(None, None)` (failure; an exception thrown out of the worker is
also counted as a failure and a batch failure, so it is folded into
`failed`). -/
inductive ProcessResult where
  | skipped : ProcessResult
  | ok : ℚ → ProcessResult
  | failed : ProcessResult
deriving DecidableEq, Repr

/-- Mutable state of one `process_directory` run's batch loop. -/
structure BatchLoopState where
  batch_index : Nat
  processed_images : Nat
  skipped_images : Nat
  failed_images : Nat
  consecutive_failures : Nat
  adaptive_pause : ℚ
deriving DecidableEq, Repr

/-- Whether some item of the batch failed (`batch_failures > 0`). -/
def batchHasFailure (outcome : String → ProcessResult) (batch : List String) : Bool :=
  batch.any (fun f => outcome f == ProcessResult.failed)

/-- The `as_completed` loop over one batch: count each item's outcome into
`processed_images` / `skipped_images` / `failed_images`. -/
def countOutcomes (outcome : String → ProcessResult) (batch : List String)
    (st : BatchLoopState) : BatchLoopState :=
  batch.foldl (fun s f =>
    match outcome f with
    | .skipped => { s with skipped_images := s.skipped_images + 1 }
    | .ok _ => { s with processed_images := s.processed_images + 1 }
    | .failed => { s with failed_images := s.failed_images + 1 }) st

/-- One iteration of the `while batch_index < len(image_files)` loop, with the
pause/stop flags never raised (the claims' scenario): compute
`current_batch_size = max(1, batch_size - consecutive_failures)`, slice the
batch and advance `batch_index`, then sample the CPU load — above 90 the
iteration stops here (sleep 10 s, `continue`), with the batch already
consumed.  Otherwise drain the batch, counting each outcome, and adapt
`consecutive_failures` and `adaptive_pause` (`max(0, ...-1)` is ℕ
subtraction; 1.5 and 0.8 are exact here).  `psutil.cpu_percent` is the
`system_load` oracle; the thread pool only reorders completions, which the
counters cannot observe. -/
def processStep (image_files : List String) (batch_size : Nat) (pause_between_batches : ℚ)
    (outcome : String → ProcessResult) (system_load : ℚ) (st : BatchLoopState) :
    BatchLoopState :=
  let current_batch_size := max 1 (batch_size - st.consecutive_failures)
  let batch := (image_files.drop st.batch_index).take current_batch_size
  let st := { st with batch_index := st.batch_index + batch.length }
  if 90 < system_load then st
  else
    let st := countOutcomes outcome batch st
    if batchHasFailure outcome batch then
      { st with consecutive_failures := st.consecutive_failures + 1,
                adaptive_pause := min 60 (st.adaptive_pause * 1.5) }
    else
      { st with consecutive_failures := st.consecutive_failures - 1,
                adaptive_pause := max pause_between_batches (st.adaptive_pause * 0.8) }

/-- The batch loop itself: iterate `processStep` while `batch_index` is short
of the work list, reading one load sample per iteration.  Since every step
consumes at least one item, `image_files.length` iterations of fuel always
suffice. -/
def processLoop (image_files : List String) (batch_size : Nat) (pause_between_batches : ℚ)
    (outcome : String → ProcessResult) (loads : Nat → ℚ) :
    Nat → Nat → BatchLoopState → BatchLoopState
  | 0, _, st => st
  | fuel + 1, iter, st =>
    if st.batch_index < image_files.length then
      processLoop image_files batch_size pause_between_batches outcome loads fuel (iter + 1)
        (processStep image_files batch_size pause_between_batches outcome (loads iter) st)
    else st

/-- The run's state entering the batch loop (counters zeroed; cached images
already moved to `skipped` before the loop — the claims' scenarios start with
none cached). -/
def initialBatchState (pause_between_batches : ℚ) : BatchLoopState :=
  { batch_index := 0, processed_images := 0, skipped_images := 0, failed_images := 0,
    consecutive_failures := 0, adaptive_pause := pause_between_batches }

/-- C2: one enumerated, non-cached file, default batch size 5; the first load
sample is 95 % (above the high-water mark), later ones 0.  The loop
terminates with `processed = skipped = failed = 0`: the high-load branch runs
*after* `batch_index` was advanced past the batch, so the file is consumed,
never handed to a worker, and appears in no counter — it is silently
dropped, although its `process_image` would have succeeded. -/
theorem C2_high_load_drops_batch :
    processLoop ["a.jpg"] 5 5 (fun _ => .ok 1) (fun iter => if iter = 0 then 95 else 0)
        1 0 (initialBatchState 5) =
      { batch_index := 1, processed_images := 0, skipped_images := 0, failed_images := 0,
        consecutive_failures := 0, adaptive_pause := 5 } ∧
    ([ "a.jpg" ] : List String).length = 1 := by
  constructor
  · rw [processLoop]
    norm_num [initialBatchState, processStep, processLoop]
  · rfl

/-- Draining a batch touches only the three outcome counters: the batch
index, the failure streak and the pause are left alone. -/
theorem countOutcomes_preserves (outcome : String → ProcessResult) (batch : List String) :
    ∀ st : BatchLoopState,
      (countOutcomes outcome batch st).batch_index = st.batch_index ∧
      (countOutcomes outcome batch st).consecutive_failures = st.consecutive_failures ∧
      (countOutcomes outcome batch st).adaptive_pause = st.adaptive_pause := by
  induction batch with
  | nil => intro st; exact ⟨rfl, rfl, rfl⟩
  | cons f rest ih =>
    intro st
    have hstep : ∀ s : BatchLoopState,
        countOutcomes outcome (f :: rest) s =
          countOutcomes outcome rest
            (match outcome f with
             | .skipped => { s with skipped_images := s.skipped_images + 1 }
             | .ok _ => { s with processed_images := s.processed_images + 1 }
             | .failed => { s with failed_images := s.failed_images + 1 }) := by
      intro s
      rfl
    rw [hstep]
    cases h : outcome f <;> simp only [h] <;> exact ih _

/-- First iteration state for the C6 counterexample: batch size 2, no failure
streak, a single remaining file. -/
theorem C6_partial_batch_cex :
    (processStep ["a.jpg"] 2 5 (fun _ => .ok 1) 0 (initialBatchState 5)).batch_index
        - (initialBatchState 5).batch_index = 1 ∧
      max 1 (2 - (initialBatchState 5).consecutive_failures) = 2 := by
  constructor
  · norm_num [processStep, initialBatchState, countOutcomes, batchHasFailure]
    split <;> rfl
  · decide

/-- C6 amended: each iteration takes `min(max(1, batch_size -
consecutive_failures), remaining)` items off the work list (the adaptive size,
capped by what is left); when the load sample stays at or below 90 the streak
and the pause adapt exactly as claimed (±1 with ℕ floor at 0, ×1.5 capped at
60 s, ×0.8 floored at the configured pause), and a high load sample leaves
them unchanged (but still consumes the batch). -/
theorem C6_adaptive_batch_amended (image_files : List String) (batch_size : Nat)
    (pause_between_batches : ℚ) (outcome : String → ProcessResult) (system_load : ℚ)
    (st : BatchLoopState) :
    (processStep image_files batch_size pause_between_batches outcome system_load
          st).batch_index =
        st.batch_index +
          min (max 1 (batch_size - st.consecutive_failures))
            (image_files.length - st.batch_index) ∧
    (processStep image_files batch_size pause_between_batches outcome system_load
          st).consecutive_failures =
        (if 90 < system_load then st.consecutive_failures
         else if batchHasFailure outcome
             ((image_files.drop st.batch_index).take
               (max 1 (batch_size - st.consecutive_failures))) then
           st.consecutive_failures + 1
         else st.consecutive_failures - 1) ∧
    (processStep image_files batch_size pause_between_batches outcome system_load
          st).adaptive_pause =
        (if 90 < system_load then st.adaptive_pause
         else if batchHasFailure outcome
             ((image_files.drop st.batch_index).take
               (max 1 (batch_size - st.consecutive_failures))) then
           min 60 (st.adaptive_pause * 1.5)
         else max pause_between_batches (st.adaptive_pause * 0.8)) := by
  unfold processStep
  set batch := (image_files.drop st.batch_index).take
    (max 1 (batch_size - st.consecutive_failures)) with hbatch
  have hlen : batch.length =
      min (max 1 (batch_size - st.consecutive_failures))
        (image_files.length - st.batch_index) := by
    rw [hbatch, List.length_take, List.length_drop]
  by_cases hload : (90 : ℚ) < system_load
  · simp only [hload, if_true, ite_true]
    refine ⟨by rw [hlen], ?_, ?_⟩ <;> simp
  · simp only [hload, if_false, ite_false]
    have hpres := countOutcomes_preserves outcome batch
      { st with batch_index := st.batch_index + batch.length }
    by_cases hfail : batchHasFailure outcome batch = true
    · simp only [hfail, if_true, ite_true]
      exact ⟨by rw [hpres.1, hlen], by rw [hpres.2.1], by rw [hpres.2.2]⟩
    · have hf : batchHasFailure outcome batch = false := by
        cases h : batchHasFailure outcome batch
        · rfl
        · exact absurd h hfail
      simp only [hf, Bool.false_eq_true, if_false, ite_false]
      exact ⟨by rw [hpres.1, hlen], by rw [hpres.2.1], by rw [hpres.2.2]⟩

/-! ## `utils.py`: JSON values, `json.loads`, and `clean_and_repair_json` -/

/-- Python/JSON values as produced by `json.loads` (numbers collapsed to one
exact rational constructor; object member lists keep textual order). -/
inductive Json where
  | null : Json
  | bool : Bool → Json
  | num : ℚ → Json
  | str : String → Json
  | arr : List Json → Json
  | obj : List (String × Json) → Json
deriving Repr

/-- JSON's insignificant whitespace, as skipped by `json.loads`. -/
def isJsonWs (c : Char) : Bool :=
  c = ' ' || c = '\t' || c = '\n' || c = '\r'

/-- Python's regex `\s` over ASCII text (the repairs run on model output). -/
def isPyWs (c : Char) : Bool :=
  c = ' ' || c = '\t' || c = '\n' || c = '\r' || c = '\x0b' || c = '\x0c'

/-- Value of one hex digit. -/
def hexVal (c : Char) : Option Nat :=
  if '0' ≤ c ∧ c ≤ '9' then some (c.toNat - '0'.toNat)
  else if 'a' ≤ c ∧ c ≤ 'f' then some (c.toNat - 'a'.toNat + 10)
  else if 'A' ≤ c ∧ c ≤ 'F' then some (c.toNat - 'A'.toNat + 10)
  else none

/-- JSON string body after the opening quote: returns the decoded characters
and the remainder after the closing quote.  Escapes follow `json.loads`
(surrogate-pair recombination is not modelled; a lone `\uXXXX` becomes the
code point, or the null character when it is no scalar value).  Unescaped
control characters are rejected as `json.loads` does in strict mode. -/
def parseStringBody : List Char → Option (List Char × List Char)
  | [] => none
  | '"' :: rest => some ([], rest)
  | '\\' :: 'u' :: h1 :: h2 :: h3 :: h4 :: rest =>
    match hexVal h1, hexVal h2, hexVal h3, hexVal h4 with
    | some a, some b, some c, some d =>
      (parseStringBody rest).map
        (fun p => (Char.ofNat (((a * 16 + b) * 16 + c) * 16 + d) :: p.1, p.2))
    | _, _, _, _ => none
  | '\\' :: e :: rest =>
    let dec : Option Char :=
      if e = '"' then some '"'
      else if e = '\\' then some '\\'
      else if e = '/' then some '/'
      else if e = 'b' then some '\x08'
      else if e = 'f' then some '\x0c'
      else if e = 'n' then some '\n'
      else if e = 'r' then some '\r'
      else if e = 't' then some '\t'
      else none
    match dec with
    | some c => (parseStringBody rest).map (fun p => (c :: p.1, p.2))
    | none => none
  | c :: rest =>
    if c.toNat < 0x20 then none
    else (parseStringBody rest).map (fun p => (c :: p.1, p.2))

/-- Digits to the natural number they denote. -/
def digitsToNat (ds : List Char) : Nat :=
  ds.foldl (fun n c => n * 10 + (c.toNat - '0'.toNat)) 0

/-- JSON number grammar (`-?(0|[1-9]\\d*)(\\.\\d+)?([eE][+-]?\\d+)?`), value as
an exact rational.  A malformed tail (`1.`, `1e`) fails like `json.loads`. -/
def parseNumber (cs : List Char) : Option (ℚ × List Char) :=
  let signAndRest : Bool × List Char :=
    match cs with
    | '-' :: r => (true, r)
    | _ => (false, cs)
  let neg := signAndRest.1
  let cs1 := signAndRest.2
  let intAndRest : Option (List Char × List Char) :=
    match cs1 with
    | '0' :: r => some (['0'], r)
    | c :: _ =>
      if c.isDigit then some (cs1.takeWhile Char.isDigit, cs1.dropWhile Char.isDigit)
      else none
    | [] => none
  match intAndRest with
  | none => none
  | some (intDigits, rest1) =>
    let fracAndRest : Option (List Char × List Char) :=
      match rest1 with
      | '.' :: r =>
        let ds := r.takeWhile Char.isDigit
        if ds.isEmpty then none else some (ds, r.dropWhile Char.isDigit)
      | _ => some ([], rest1)
    match fracAndRest with
    | none => none
    | some (frac, rest2) =>
      let expAndRest : Option (Int × List Char) :=
        match rest2 with
        | e :: r =>
          if e = 'e' ∨ e = 'E' then
            let signExpAndRest : Int × List Char :=
              match r with
              | '+' :: r2 => (1, r2)
              | '-' :: r2 => (-1, r2)
              | _ => (1, r)
            let ds := signExpAndRest.2.takeWhile Char.isDigit
            if ds.isEmpty then none
            else some (signExpAndRest.1 * (digitsToNat ds : Int),
              signExpAndRest.2.dropWhile Char.isDigit)
          else some (0, rest2)
        | [] => some (0, rest2)
      match expAndRest with
      | none => none
      | some (e, rest3) =>
        let mantissa := digitsToNat (intDigits ++ frac)
        some ((if neg then -1 else 1) * (mantissa : ℚ) * (10 : ℚ) ^ (e - (frac.length : Int)),
          rest3)

/-- Object member list: `pv` parses one value (the next recursion level of
`parseVal`, passed explicitly so the recursion stays structural in the fuel).
Entered just past `{` or a separating `,`; the empty object is handled by the
caller. -/
def parseMembersWith (pv : List Char → Option (Json × List Char)) :
    Nat → List Char → Option (List (String × Json) × List Char)
  | 0, _ => none
  | fuel + 1, cs =>
    match cs.dropWhile isJsonWs with
    | '"' :: rest =>
      match parseStringBody rest with
      | none => none
      | some (key, rest2) =>
        match rest2.dropWhile isJsonWs with
        | ':' :: rest4 =>
          match pv (rest4.dropWhile isJsonWs) with
          | none => none
          | some (v, rest5) =>
            match rest5.dropWhile isJsonWs with
            | ',' :: rest7 =>
              (parseMembersWith pv fuel rest7).map
                (fun p => ((String.mk key, v) :: p.1, p.2))
            | '}' :: rest7 => some ([(String.mk key, v)], rest7)
            | _ => none
        | _ => none
    | _ => none

/-- Array element list, same convention as `parseMembersWith`. -/
def parseElemsWith (pv : List Char → Option (Json × List Char)) :
    Nat → List Char → Option (List Json × List Char)
  | 0, _ => none
  | fuel + 1, cs =>
    match pv (cs.dropWhile isJsonWs) with
    | none => none
    | some (v, rest) =>
      match rest.dropWhile isJsonWs with
      | ',' :: rest2 =>
        (parseElemsWith pv fuel rest2).map (fun p => (v :: p.1, p.2))
      | ']' :: rest2 => some ([v], rest2)
      | _ => none

/-- One JSON value.  The fuel bounds the nesting/element recursion; callers
pass the input length plus one, which every grammatical input stays within
(each recursive call sits behind at least one consumed character). -/
def parseVal : Nat → List Char → Option (Json × List Char)
  | 0, _ => none
  | fuel + 1, cs =>
    match cs with
    | '{' :: rest =>
      match rest.dropWhile isJsonWs with
      | '}' :: rest2 => some (Json.obj [], rest2)
      | _ => (parseMembersWith (parseVal fuel) fuel rest).map
          (fun p => (Json.obj p.1, p.2))
    | '[' :: rest =>
      match rest.dropWhile isJsonWs with
      | ']' :: rest2 => some (Json.arr [], rest2)
      | _ => (parseElemsWith (parseVal fuel) fuel rest).map
          (fun p => (Json.arr p.1, p.2))
    | '"' :: rest => (parseStringBody rest).map (fun p => (Json.str (String.mk p.1), p.2))
    | 't' :: 'r' :: 'u' :: 'e' :: rest => some (Json.bool true, rest)
    | 'f' :: 'a' :: 'l' :: 's' :: 'e' :: rest => some (Json.bool false, rest)
    | 'n' :: 'u' :: 'l' :: 'l' :: rest => some (Json.null, rest)
    | _ => (parseNumber cs).map (fun p => (Json.num p.1, p.2))

/-- `json.loads` on a character list: parse one value surrounded by optional
whitespace; anything trailing is an error (`None`). -/
def json_loads_list (cs : List Char) : Option Json :=
  match parseVal ((cs.dropWhile isJsonWs).length + 1) (cs.dropWhile isJsonWs) with
  | some (v, rest) => if rest.dropWhile isJsonWs = [] then some v else none
  | none => none

/-! ### The progressive regex repairs (`re.sub` hand-compiled) -/

/-- `re.sub` driver: at each position try the pattern (`step` returns the
replacement text and the remainder past the match, which is always strictly
shorter — every pattern below needs at least one character); on a match emit
the replacement and continue past it, else copy one character.  The fuel is
the input length, which the strict consumption keeps sufficient. -/
def rewriteScan (step : List Char → Option (List Char × List Char)) :
    Nat → List Char → List Char
  | 0, cs => cs
  | _ + 1, [] => []
  | fuel + 1, c :: cs =>
    match step (c :: cs) with
    | some (rep, rest) => rep ++ rewriteScan step fuel rest
    | none => c :: rewriteScan step fuel cs

/-- Matcher for `\s+` (replacement: one space). -/
def wsRunStep (cs : List Char) : Option (List Char × List Char) :=
  match cs with
  | c :: _ => if isPyWs c then some ([' '], cs.dropWhile isPyWs) else none
  | [] => none

/-- `re.sub(r'\s+', ' ', s)`. -/
def collapseWs (cs : List Char) : List Char :=
  rewriteScan wsRunStep cs.length cs

/-- Matcher for `}\s*{` (replacement `},{`). -/
def braceGapStep (cs : List Char) : Option (List Char × List Char) :=
  match cs with
  | '}' :: rest =>
    match rest.dropWhile isPyWs with
    | '{' :: rest2 => some (['}', ',', '{'], rest2)
    | _ => none
  | _ => none

/-- Matcher for `"\s*"` (replacement `","`). -/
def quoteGapStep (cs : List Char) : Option (List Char × List Char) :=
  match cs with
  | '"' :: rest =>
    match rest.dropWhile isPyWs with
    | '"' :: rest2 => some (['"', ',', '"'], rest2)
    | _ => none
  | _ => none

/-- Matcher for `,\s*]` (replacement `]`). -/
def trailingCommaArrStep (cs : List Char) : Option (List Char × List Char) :=
  match cs with
  | ',' :: rest =>
    match rest.dropWhile isPyWs with
    | ']' :: rest2 => some ([']'], rest2)
    | _ => none
  | _ => none

/-- Matcher for `,\s*}` (replacement `}`). -/
def trailingCommaObjStep (cs : List Char) : Option (List Char × List Char) :=
  match cs with
  | ',' :: rest =>
    match rest.dropWhile isPyWs with
    | '}' :: rest2 => some (['}'], rest2)
    | _ => none
  | _ => none

/-- Matcher for `(:\s*"[^"]*")\s*(")` (replacement `\1,\2`): a colon, its
string value, then a bare quote — insert the missing comma. -/
def colonStrStep (cs : List Char) : Option (List Char × List Char) :=
  match cs with
  | ':' :: rest =>
    let ws1 := rest.takeWhile isPyWs
    match rest.dropWhile isPyWs with
    | '"' :: r2 =>
      let content := r2.takeWhile (fun c => c ≠ '"')
      match r2.dropWhile (fun c => c ≠ '"') with
      | '"' :: r3 =>
        match r3.dropWhile isPyWs with
        | '"' :: r4 =>
          some (':' :: ws1 ++ '"' :: content ++ ['"', ',', '"'], r4)
        | _ => none
      | _ => none
    | _ => none
  | _ => none

/-- Matcher for `(:\s*\d+)\s*(")` (replacement `\1,\2`). -/
def colonNumStep (cs : List Char) : Option (List Char × List Char) :=
  match cs with
  | ':' :: rest =>
    let ws1 := rest.takeWhile isPyWs
    let r2 := rest.dropWhile isPyWs
    let ds := r2.takeWhile Char.isDigit
    if ds.isEmpty then none
    else
      match (r2.dropWhile Char.isDigit).dropWhile isPyWs with
      | '"' :: r4 => some (':' :: ws1 ++ ds ++ [',', '"'], r4)
      | _ => none
  | _ => none

/-- Matcher for `(:\s*true|false)\s*(")` (replacement `\1,\2`).  Python's
alternation binds the whole left side: the group is either `:\s*true` or the
bare literal `false`. -/
def colonBoolStep (cs : List Char) : Option (List Char × List Char) :=
  let afterGroup : Option (List Char × List Char) :=
    match cs with
    | ':' :: rest =>
      let ws1 := rest.takeWhile isPyWs
      match rest.dropWhile isPyWs with
      | 't' :: 'r' :: 'u' :: 'e' :: r2 => some (':' :: ws1 ++ ['t', 'r', 'u', 'e'], r2)
      | _ => none
    | 'f' :: 'a' :: 'l' :: 's' :: 'e' :: r2 => some (['f', 'a', 'l', 's', 'e'], r2)
    | _ => none
  match afterGroup with
  | some (g1, r2) =>
    match r2.dropWhile isPyWs with
    | '"' :: r4 => some (g1 ++ [',', '"'], r4)
    | _ => none
  | none => none

/-- Matcher for `(:\s*\[[^\]]*\])\s*(")` (replacement `\1,\2`). -/
def colonArrStep (cs : List Char) : Option (List Char × List Char) :=
  match cs with
  | ':' :: rest =>
    let ws1 := rest.takeWhile isPyWs
    match rest.dropWhile isPyWs with
    | '[' :: r2 =>
      let content := r2.takeWhile (fun c => c ≠ ']')
      match r2.dropWhile (fun c => c ≠ ']') with
      | ']' :: r3 =>
        match r3.dropWhile isPyWs with
        | '"' :: r4 => some (':' :: ws1 ++ '[' :: content ++ [']', ',', '"'], r4)
        | _ => none
      | _ => none
    | _ => none
  | _ => none

/-- `re.sub(r'(?<=[^\\])"(?=[^,\{\}\[\]:])', r'\"', s)`: escape a quote that
follows a non-backslash character and precedes a character outside
`,{}[]:`.  The lookarounds inspect the *input*, so the scanner threads the
original previous character; at position 0 the lookbehind fails. -/
def escapeQuotesGo (prev : Option Char) : List Char → List Char
  | [] => []
  | c :: cs =>
    let isMatch : Bool :=
      c = '"' &&
      (match prev with
       | some p => p ≠ '\\'
       | none => false) &&
      (match cs with
       | d :: _ => ¬ (d = ',' ∨ d = '{' ∨ d = '}' ∨ d = '[' ∨ d = ']' ∨ d = ':')
       | [] => false)
    if isMatch then '\\' :: '"' :: escapeQuotesGo (some c) cs
    else c :: escapeQuotesGo (some c) cs

/-- Matcher for `:\s*True` (replacement `: true`); `False` and `None` below
are analogous — Python literals normalised to JSON ones, with a single space
in the replacement text. -/
def pyTrueStep (cs : List Char) : Option (List Char × List Char) :=
  match cs with
  | ':' :: rest =>
    match rest.dropWhile isPyWs with
    | 'T' :: 'r' :: 'u' :: 'e' :: r2 => some ([':', ' ', 't', 'r', 'u', 'e'], r2)
    | _ => none
  | _ => none

/-- Matcher for `:\s*False` (replacement `: false`). -/
def pyFalseStep (cs : List Char) : Option (List Char × List Char) :=
  match cs with
  | ':' :: rest =>
    match rest.dropWhile isPyWs with
    | 'F' :: 'a' :: 'l' :: 's' :: 'e' :: r2 => some ([':', ' ', 'f', 'a', 'l', 's', 'e'], r2)
    | _ => none
  | _ => none

/-- Matcher for `:\s*None` (replacement `: null`). -/
def pyNoneStep (cs : List Char) : Option (List Char × List Char) :=
  match cs with
  | ':' :: rest =>
    match rest.dropWhile isPyWs with
    | 'N' :: 'o' :: 'n' :: 'e' :: r2 => some ([':', ' ', 'n', 'u', 'l', 'l'], r2)
    | _ => none
  | _ => none

/-- All splits `l = before ++ '"' :: after`, in ascending length of `before`
(reversing gives the greedy, longest-first order regex backtracking tries). -/
def quoteSplits : List Char → List (List Char × List Char)
  | [] => []
  | c :: cs =>
    let tailSplits := (quoteSplits cs).map (fun p => (c :: p.1, p.2))
    if c = '"' then ([], cs) :: tailSplits else tailSplits

/-- Matcher for `(\[[^\],]*)"([^"\],]*)"([^\],]*)"` (replacement
`\1"\2","\3"`): the greedy groups backtrack, so the first (longest valid)
`\1` split is tried first, `\2` is forced (it cannot contain a quote), and
`\3` again takes the longest valid split. -/
def arrQuoteStep (cs : List Char) : Option (List Char × List Char) :=
  match cs with
  | '[' :: rest =>
    let okG1 : List Char → Bool := fun g => g.all (fun c => c ≠ ']' ∧ c ≠ ',')
    let okG2 : Char → Bool := fun c => c ≠ '"' ∧ c ≠ ']' ∧ c ≠ ','
    ((quoteSplits rest).filter (fun p => okG1 p.1)).reverse.findSome? (fun p =>
      let g1 := p.1
      let r1 := p.2
      let g2 := r1.takeWhile okG2
      match r1.dropWhile okG2 with
      | '"' :: r2 =>
        ((quoteSplits r2).filter (fun q => okG1 q.1)).reverse.findSome? (fun q =>
          some ('[' :: g1 ++ '"' :: g2 ++ '"' :: ',' :: '"' :: q.1 ++ ['"'], q.2))
      | _ => none)
  | _ => none

/-- One `re.sub` application: scan the whole text once. -/
def applySub (step : List Char → Option (List Char × List Char)) (cs : List Char) :
    List Char :=
  rewriteScan step cs.length cs

/-- The repair cascade of `clean_and_repair_json`, in source order (repairs
1–8 of the first `except` block, the quote-escape pass sitting between the
missing-comma fixes and the Python-literal fixes as in the source). -/
def repairPipeline (cs : List Char) : List Char :=
  applySub arrQuoteStep
    (applySub pyNoneStep
      (applySub pyFalseStep
        (applySub pyTrueStep
          (escapeQuotesGo none
            (applySub colonArrStep
              (applySub colonBoolStep
                (applySub colonNumStep
                  (applySub colonStrStep
                    (applySub trailingCommaObjStep
                      (applySub trailingCommaArrStep
                        (applySub quoteGapStep
                          (applySub braceGapStep cs))))))))))))

/-! ### Aggressive extraction and `clean_and_repair_json` -/

/-- Python's `str.find(ch)` (index of the first occurrence, `None` for -1). -/
def pyFindAux (ch : Char) : List Char → Option Nat
  | [] => none
  | x :: xs => if x = ch then some 0 else (pyFindAux ch xs).map (· + 1)

/-- Python's `str.rfind(ch)` (index of the last occurrence, `None` for -1). -/
def pyRFind (ch : Char) (cs : List Char) : Option Nat :=
  (pyFindAux ch cs.reverse).map (fun k => cs.length - 1 - k)

/-- Match a literal character sequence, returning the remainder. -/
def dropLit : List Char → List Char → Option (List Char)
  | [], cs => some cs
  | k :: ks, c :: cs => if c = k then dropLit ks cs else none
  | _ :: _, [] => none

/-- Try `"<key>"\s*:\s*\[(.*?)\]` at this exact position; the non-greedy
capture runs to the first `]` (the text reaching here has been
whitespace-collapsed, so `.`'s newline exclusion cannot matter). -/
def keyArrayAt (pat : List Char) (cs : List Char) : Option (List Char) :=
  match dropLit pat cs with
  | none => none
  | some r1 =>
    match r1.dropWhile isPyWs with
    | ':' :: r2 =>
      match r2.dropWhile isPyWs with
      | '[' :: r3 =>
        match r3.dropWhile (fun c => c ≠ ']') with
        | ']' :: _ => some (r3.takeWhile (fun c => c ≠ ']'))
        | _ => none
      | _ => none
    | _ => none

/-- First match of `"<key>"\s*:\s*\[(.*?)\]` anywhere in the text (the
`re.findall(...)[0]` the aggressive branch consumes; `None` iff the findall
list is empty). -/
def findKeyArray (pat : List Char) : List Char → Option (List Char)
  | [] => keyArrayAt pat []
  | c :: cs =>
    match keyArrayAt pat (c :: cs) with
    | some r => some r
    | none => findKeyArray pat cs

/-- `re.findall(r'"([^"]*)"', content)`: all non-overlapping quoted spans. -/
def findQuoted : Nat → List Char → List String
  | 0, _ => []
  | _ + 1, [] => []
  | fuel + 1, '"' :: rest =>
    (match rest.dropWhile (fun c => c ≠ '"') with
     | '"' :: r2 => String.mk (rest.takeWhile (fun c => c ≠ '"')) :: findQuoted fuel r2
     | _ => [])
  | fuel + 1, _ :: rest => findQuoted fuel rest

/-- The minimal fallback object
`{"subjects": [], "objects": [], "scene": ["Description not available"]}`. -/
def placeholderResult : Json :=
  Json.obj [("subjects", Json.arr []), ("objects", Json.arr []),
            ("scene", Json.arr [Json.str "Description not available"])]

/-- The pattern `"<key>"` for the aggressive regexes. -/
def quotedKey (key : String) : List Char :=
  '"' :: key.data ++ ['"']

/-- The aggressive branch: start from the placeholder dict, overwrite
`subjects`/`objects` with whatever quoted items the first matching
`"key": [...]` span holds (even none), and `scene` only when its item list is
non-empty. -/
def aggressiveExtract (cs : List Char) : Json :=
  let subjects := findKeyArray (quotedKey "subjects") cs
  let objects := findKeyArray (quotedKey "objects") cs
  let scene := findKeyArray (quotedKey "scene") cs
  let subjectsItems := match subjects with
    | some seg => findQuoted (seg.length + 1) seg
    | none => []
  let objectsItems := match objects with
    | some seg => findQuoted (seg.length + 1) seg
    | none => []
  let sceneItems := match scene with
    | some seg => findQuoted (seg.length + 1) seg
    | none => []
  Json.obj [("subjects", Json.arr (subjectsItems.map Json.str)),
            ("objects", Json.arr (objectsItems.map Json.str)),
            ("scene",
              if sceneItems.isEmpty then Json.arr [Json.str "Description not available"]
              else Json.arr (sceneItems.map Json.str))]

/-- `clean_and_repair_json` (`utils.py`): cut the text to its outermost
`{...}` span, collapse whitespace, try `json.loads`, then the repair cascade
and a second parse, then the aggressive field extraction; any failure earlier
falls through, and without a `{` before a `}` the minimal placeholder is
returned (the function never raises). -/
def clean_and_repair_json (s : String) : Json :=
  match pyFindAux '{' s.data, pyRFind '}' s.data with
  | some start_idx, some end_idx =>
    if start_idx < end_idx then
      match json_loads_list
          (collapseWs ((s.data.drop start_idx).take (end_idx + 1 - start_idx))) with
      | some v => v
      | none =>
        match json_loads_list (repairPipeline
            (collapseWs ((s.data.drop start_idx).take (end_idx + 1 - start_idx)))) with
        | some v => v
        | none =>
          aggressiveExtract (repairPipeline
            (collapseWs ((s.data.drop start_idx).take (end_idx + 1 - start_idx))))
    else placeholderResult
  | _, _ => placeholderResult

/-- No `{` strictly before a `}` anywhere: the "no recoverable JSON" guard of
the claim (the source's `start_idx == -1 or end_idx == -1 or end <= start`). -/
def noBracePair (cs : List Char) : Bool :=
  match pyFindAux '{' cs, pyRFind '}' cs with
  | some i, some j => decide (j ≤ i)
  | _, _ => true

/-! ### Claim C9: totality and the placeholder fallback -/

/-- A successful parse of text starting with `{` yields an object. -/
theorem parseVal_obrace_obj (fuel : Nat) (rest r : List Char) (v : Json)
    (h : parseVal fuel ('{' :: rest) = some (v, r)) : ∃ ms, v = Json.obj ms := by
  cases fuel with
  | zero =>
    rw [show parseVal 0 ('{' :: rest) = none from rfl] at h
    exact Option.noConfusion h
  | succ fuel =>
    have h' : parseVal (fuel + 1) ('{' :: rest) =
        match rest.dropWhile isJsonWs with
        | '}' :: rest2 => some (Json.obj [], rest2)
        | _ => (parseMembersWith (parseVal fuel) fuel rest).map
            (fun p => (Json.obj p.1, p.2)) := rfl
    rw [h'] at h
    split at h
    · injection h with h1
      injection h1 with h2 _
      exact ⟨[], h2.symm⟩
    · rcases Option.map_eq_some'.mp h with ⟨p, _, hp⟩
      injection hp with h2 _
      exact ⟨p.1, h2.symm⟩

/-- `json.loads` of text starting with `{` is an object when it succeeds. -/
theorem json_loads_obrace_obj (u : List Char) (v : Json)
    (h : json_loads_list ('{' :: u) = some v) : ∃ ms, v = Json.obj ms := by
  unfold json_loads_list at h
  have hws : ('{' :: u).dropWhile isJsonWs = '{' :: u := by
    rw [List.dropWhile_cons]
    simp [isJsonWs]
  rw [hws] at h
  cases hp : parseVal (('{' :: u).length + 1) ('{' :: u) with
  | none => rw [hp] at h; simp at h
  | some p =>
    rw [hp] at h
    rcases p with ⟨w, rest⟩
    by_cases hrest : rest.dropWhile isJsonWs = []
    · simp only [hrest, if_pos rfl] at h
      injection h with h1
      exact h1 ▸ parseVal_obrace_obj _ u rest w hp
    · simp [hrest] at h

/-- `rewriteScan` keeps a leading `{` when the pattern cannot match at a
leading `{`. -/
theorem rewriteScan_head (step : List Char → Option (List Char × List Char))
    (hstep : ∀ t, step ('{' :: t) = none) :
    ∀ (fuel : Nat) (t : List Char), ∃ u, rewriteScan step fuel ('{' :: t) = '{' :: u := by
  intro fuel t
  cases fuel with
  | zero => exact ⟨t, rfl⟩
  | succ fuel =>
    refine ⟨rewriteScan step fuel t, ?_⟩
    show (match step ('{' :: t) with
      | some (rep, rest) => rep ++ rewriteScan step fuel rest
      | none => '{' :: rewriteScan step fuel t) = _
    rw [hstep t]

/-- The escaping pass also keeps a leading `{` (it only rewrites quotes). -/
theorem escapeQuotesGo_head (prev : Option Char) (t : List Char) :
    ∃ u, escapeQuotesGo prev ('{' :: t) = '{' :: u := by
  exact ⟨escapeQuotesGo (some '{') t, rfl⟩

/-- One `re.sub` application keeps a leading `{` when its pattern cannot
match there. -/
theorem applySub_head (step : List Char → Option (List Char × List Char))
    (hstep : ∀ t, step ('{' :: t) = none) (x w : List Char) (hx : x = '{' :: w) :
    ∃ u, applySub step x = '{' :: u := by
  subst hx
  exact rewriteScan_head step hstep ('{' :: w).length w

/-- The full repair cascade keeps a leading `{`. -/
theorem repairPipeline_head (t : List Char) :
    ∃ u, repairPipeline ('{' :: t) = '{' :: u := by
  obtain ⟨u1, h1⟩ := applySub_head braceGapStep (fun _ => rfl) _ t rfl
  obtain ⟨u2, h2⟩ := applySub_head quoteGapStep (fun _ => rfl) _ u1 h1
  obtain ⟨u3, h3⟩ := applySub_head trailingCommaArrStep (fun _ => rfl) _ u2 h2
  obtain ⟨u4, h4⟩ := applySub_head trailingCommaObjStep (fun _ => rfl) _ u3 h3
  obtain ⟨u5, h5⟩ := applySub_head colonStrStep (fun _ => rfl) _ u4 h4
  obtain ⟨u6, h6⟩ := applySub_head colonNumStep (fun _ => rfl) _ u5 h5
  obtain ⟨u7, h7⟩ := applySub_head colonBoolStep (fun _ => rfl) _ u6 h6
  obtain ⟨u8, h8⟩ := applySub_head colonArrStep (fun _ => rfl) _ u7 h7
  have h9 : ∃ u, escapeQuotesGo none (applySub colonArrStep
      (applySub colonBoolStep
        (applySub colonNumStep
          (applySub colonStrStep
            (applySub trailingCommaObjStep
              (applySub trailingCommaArrStep
                (applySub quoteGapStep (applySub braceGapStep ('{' :: t))))))))) =
      '{' :: u := by
    rw [h8]
    exact escapeQuotesGo_head none u8
  obtain ⟨u9, h9⟩ := h9
  obtain ⟨u10, h10⟩ := applySub_head pyTrueStep (fun _ => rfl) _ u9 h9
  obtain ⟨u11, h11⟩ := applySub_head pyFalseStep (fun _ => rfl) _ u10 h10
  obtain ⟨u12, h12⟩ := applySub_head pyNoneStep (fun _ => rfl) _ u11 h11
  obtain ⟨u13, h13⟩ := applySub_head arrQuoteStep (fun _ => rfl) _ u12 h12
  exact ⟨u13, h13⟩

/-- `str.find` really points at the character. -/
theorem pyFindAux_drop (ch : Char) :
    ∀ (cs : List Char) (i : Nat), pyFindAux ch cs = some i → ∃ u, cs.drop i = ch :: u := by
  intro cs
  induction cs with
  | nil => intro i h; simp [pyFindAux] at h
  | cons x xs ih =>
    intro i h
    rw [pyFindAux] at h
    by_cases hx : x = ch
    · rw [if_pos hx] at h
      injection h with h1
      exact ⟨xs, by rw [← h1, hx]; rfl⟩
    · rw [if_neg hx] at h
      rcases Option.map_eq_some'.mp h with ⟨j, hj, hji⟩
      obtain ⟨u, hu⟩ := ih j hj
      exact ⟨u, by rw [← hji]; simpa using hu⟩

/-- C9: `clean_and_repair_json` is total by construction and always returns a
JSON *object* (each of its branches — direct parse of the `{...}` span,
parse after repairs, aggressive extraction, placeholder — yields one), and
whenever the input has no `{` before a `}` (no recoverable JSON) it returns
exactly the minimal placeholder
`{"subjects": [], "objects": [], "scene": ["Description not available"]}`. -/
theorem C9_clean_and_repair_total (s : String) :
    (∃ ms, clean_and_repair_json s = Json.obj ms) ∧
      (noBracePair s.data = true → clean_and_repair_json s = placeholderResult) := by
  constructor
  · unfold clean_and_repair_json
    cases hf : pyFindAux '{' s.data with
    | none => exact ⟨_, rfl⟩
    | some i =>
      cases hr : pyRFind '}' s.data with
      | none => exact ⟨_, rfl⟩
      | some j =>
        dsimp only
        by_cases hij : i < j
        · rw [if_pos hij]
          obtain ⟨u, hu⟩ := pyFindAux_drop '{' s.data i hf
          obtain ⟨k, hk⟩ : ∃ k, j + 1 - i = k + 1 := ⟨j - i, by omega⟩
          have htake : (s.data.drop i).take (j + 1 - i) = '{' :: u.take k := by
            rw [hu, hk]
            rfl
          obtain ⟨w, hw⟩ :=
            rewriteScan_head wsRunStep (fun _ => rfl) ('{' :: u.take k).length (u.take k)
          have hcw : collapseWs ((s.data.drop i).take (j + 1 - i)) = '{' :: w := by
            rw [htake]
            exact hw
          rw [hcw]
          cases hl1 : json_loads_list ('{' :: w) with
          | some v => exact json_loads_obrace_obj w v hl1
          | none =>
            obtain ⟨w2, hrp⟩ := repairPipeline_head w
            rw [hrp]
            cases hl2 : json_loads_list ('{' :: w2) with
            | some v => exact json_loads_obrace_obj w2 v hl2
            | none => exact ⟨_, rfl⟩
        · rw [if_neg hij]
          exact ⟨_, rfl⟩
  · intro hnb
    unfold noBracePair at hnb
    unfold clean_and_repair_json
    cases hf : pyFindAux '{' s.data with
    | none => rfl
    | some i =>
      cases hr : pyRFind '}' s.data with
      | none => rfl
      | some j =>
        rw [hf, hr] at hnb
        have hji : j ≤ i := by simpa using hnb
        dsimp only
        rw [if_neg (by omega)]

/-! ## `extract_keywords_from_json` (claim C10) -/

/-- Python's `str.strip()` (over the ASCII whitespace the pipeline sees):
drop leading whitespace, then trailing whitespace via the reversal. -/
def stripList (cs : List Char) : List Char :=
  ((cs.dropWhile isPyWs).reverse.dropWhile isPyWs).reverse

/-- `str.strip()` on strings. -/
def pyStripStr (s : String) : String := String.mk (stripList s.data)

/-- The cleaning loop's `1`-prefix quirk: `kw.startswith("1") and len(kw) > 1
and not kw[1].isdigit()` drops the leading `1` (exposing whatever follows,
including whitespace). -/
def removeLeadingOne (kw : String) : String :=
  match kw.data with
  | '1' :: c :: rest => if c.isDigit then kw else String.mk (c :: rest)
  | _ => kw

/-- The category names scanned for keywords, in source order. -/
def categoriesList : List String :=
  ["subjects", "objects", "lighting", "colors", "composition", "mood", "technical",
   "people", "nudity"]

/-- Dictionary lookup on parsed members (`json.loads` keeps the last
occurrence of a duplicated key, so the last match wins). -/
def objFind (m : List (String × Json)) (k : String) : Option Json :=
  ((m.filter (fun kv => kv.1 = k)).getLast?).map (fun kv => kv.2)

/-- Keywords contributed by one list item: a string itself; a dict's
string-valued entries as `key:value`; anything else nothing. -/
def itemKeywords : Json → List String
  | Json.str s => [s]
  | Json.obj pairs =>
    pairs.foldl (fun acc kv =>
      match kv.2 with
      | Json.str v => acc ++ [kv.1 ++ ":" ++ v]
      | _ => acc) []
  | _ => []

/-- The category loop: for each category whose value is a list, append every
item's keywords. -/
def categoryKeywords (m : List (String × Json)) : List String :=
  categoriesList.foldl (fun acc category =>
    match objFind m category with
    | some (Json.arr items) => acc ++ items.foldl (fun a it => a ++ itemKeywords it) []
    | _ => acc) []

/-- The cleaning loop: strip, keep non-empty, drop the `1` prefix. -/
def cleanKeywords (kws : List String) : List String :=
  kws.foldl (fun acc kw0 =>
    if pyStripStr kw0 ≠ "" then acc ++ [removeLeadingOne (pyStripStr kw0)] else acc) []

/-- The argument of `extract_keywords_from_json`: raw model text (routed
through `clean_and_repair_json`) or an already-parsed value. -/
inductive KwInput where
  | rawStr : String → KwInput
  | parsed : Json → KwInput

/-- `extract_keywords_from_json` (`utils.py`): parse/repair a raw string,
collect the categories' keywords, pick the scene description (first element
of a non-empty `scene` list, or a bare `scene` string), clean the keywords
and deduplicate via `list(set(...))` (modelled by `List.dedup`).  A non-dict
top level ends in the `except` fallback `([], None)` (either no category
string occurs in it, or indexing raises `TypeError`). -/
def extract_keywords_from_json (input : KwInput) : List String × Option Json :=
  match (match input with
         | KwInput.rawStr s => clean_and_repair_json s
         | KwInput.parsed j => j) with
  | Json.obj m =>
    ((cleanKeywords (categoryKeywords m)).dedup,
      match objFind m "scene" with
      | some (Json.arr items) => items.head?
      | some (Json.str sc) => some (Json.str sc)
      | _ => none)
  | _ => ([], none)

/-- A `dropWhile` result starting with `y` has `p y` false. -/
theorem dropWhile_cons_head_false (p : Char → Bool) :
    ∀ (x : List Char) (y : Char) (ys : List Char),
      x.dropWhile p = y :: ys → p y = false := by
  intro x
  induction x with
  | nil => intro y ys h; simp [List.dropWhile] at h
  | cons a as ih =>
    intro y ys h
    rw [List.dropWhile_cons] at h
    cases hpa : p a with
    | true => rw [hpa] at h; simp at h; exact ih y ys h
    | false =>
      rw [hpa] at h
      simp at h
      rw [← h.1]
      exact hpa

/-- A list whose head fails `p` (or which is empty) is untouched by
`dropWhile`. -/
theorem dropWhile_eq_self_of_head (p : Char → Bool) (l : List Char)
    (h : ∀ c cs, l = c :: cs → p c = false) : l.dropWhile p = l := by
  cases l with
  | nil => rfl
  | cons c cs =>
    rw [List.dropWhile_cons, h c cs rfl]
    simp

/-- A non-empty strip result ends with a non-whitespace character. -/
theorem stripList_getLast_not_ws (l : List Char) (h : stripList l ≠ []) :
    ∃ y, (stripList l).getLast? = some y ∧ isPyWs y = false := by
  cases hYc : (l.dropWhile isPyWs).reverse.dropWhile isPyWs with
  | nil =>
    exfalso
    apply h
    show ((l.dropWhile isPyWs).reverse.dropWhile isPyWs).reverse = []
    rw [hYc]
    rfl
  | cons y ys =>
    have hy := dropWhile_cons_head_false isPyWs _ y ys hYc
    refine ⟨y, ?_, hy⟩
    show (((l.dropWhile isPyWs).reverse.dropWhile isPyWs).reverse).getLast? = some y
    rw [hYc, List.getLast?_reverse]
    rfl

/-- A non-empty strip result starts with a non-whitespace character. -/
theorem stripList_head_not_ws (l : List Char) :
    ∀ c cs, stripList l = c :: cs → isPyWs c = false := by
  intro c cs h
  have hYne : (l.dropWhile isPyWs).reverse.dropWhile isPyWs ≠ [] := by
    intro h0
    have : stripList l = [] := by
      show ((l.dropWhile isPyWs).reverse.dropWhile isPyWs).reverse = []
      rw [h0]
      rfl
    rw [this] at h
    exact List.noConfusion h
  have hc : ((l.dropWhile isPyWs).reverse.dropWhile isPyWs).getLast? = some c := by
    have : (stripList l).head? = some c := by rw [h]; rfl
    rw [show (stripList l).head? =
        ((l.dropWhile isPyWs).reverse.dropWhile isPyWs).reverse.head? from rfl] at this
    rw [List.head?_reverse] at this
    exact this
  have happ := List.takeWhile_append_dropWhile isPyWs (l.dropWhile isPyWs).reverse
  have hXr : (l.dropWhile isPyWs).reverse.getLast? = some c := by
    have := List.getLast?_append_of_ne_nil
      ((l.dropWhile isPyWs).reverse.takeWhile isPyWs) hYne
    rw [happ] at this
    rw [this, hc]
  rw [List.getLast?_reverse] at hXr
  cases hX : l.dropWhile isPyWs with
  | nil => rw [hX] at hXr; exact Option.noConfusion hXr
  | cons a as =>
    rw [hX] at hXr
    injection hXr with ha
    rw [← ha]
    exact dropWhile_cons_head_false isPyWs l a as hX

/-- `str.strip()` is idempotent. -/
theorem stripList_idem (l : List Char) : stripList (stripList l) = stripList l := by
  have h1 : (stripList l).dropWhile isPyWs = stripList l :=
    dropWhile_eq_self_of_head isPyWs _ (fun c cs h => stripList_head_not_ws l c cs h)
  show (((stripList l).dropWhile isPyWs).reverse.dropWhile isPyWs).reverse = stripList l
  rw [h1]
  have h2 : (stripList l).reverse.dropWhile isPyWs = (stripList l).reverse := by
    apply dropWhile_eq_self_of_head
    intro c cs h
    have hne : stripList l ≠ [] := by
      intro h0
      rw [h0] at h
      exact List.noConfusion h
    obtain ⟨y, hy, hyws⟩ := stripList_getLast_not_ws l hne
    have hcc : (stripList l).reverse.head? = some c := by rw [h]; rfl
    rw [List.head?_reverse, hy] at hcc
    injection hcc with hyc
    rw [← hyc]
    exact hyws
  rw [h2, List.reverse_reverse]

/-- A list ending in a non-whitespace character does not strip to nothing. -/
theorem stripList_ne_nil_of_getLast (m : List Char) (y : Char)
    (hy : m.getLast? = some y) (hws : isPyWs y = false) : stripList m ≠ [] := by
  intro h0
  have hY : (m.dropWhile isPyWs).reverse.dropWhile isPyWs = [] := by
    have h0' : ((m.dropWhile isPyWs).reverse.dropWhile isPyWs).reverse = [] := h0
    rwa [List.reverse_eq_nil_iff] at h0'
  have hall : ∀ a ∈ (m.dropWhile isPyWs).reverse, isPyWs a :=
    List.dropWhile_eq_nil_iff.mp hY
  have hXne : m.dropWhile isPyWs ≠ [] := by
    intro hX
    have hallm : ∀ a ∈ m, isPyWs a := List.dropWhile_eq_nil_iff.mp hX
    have hym : y ∈ m := List.mem_of_mem_getLast? (by rw [hy]; exact rfl)
    rw [hallm y hym] at hws
    exact Bool.noConfusion hws
  have hgl : (m.dropWhile isPyWs).getLast? = some y := by
    have happ := List.takeWhile_append_dropWhile isPyWs m
    have hstep := List.getLast?_append_of_ne_nil (m.takeWhile isPyWs) hXne
    rw [happ] at hstep
    rw [← hstep, hy]
  have hmem : y ∈ (m.dropWhile isPyWs).reverse := by
    rw [List.mem_reverse]
    exact List.mem_of_mem_getLast? (by rw [hgl]; exact rfl)
  rw [hall y hmem] at hws
  exact Bool.noConfusion hws

/-- What `removeLeadingOne` can do: either nothing, or drop a leading `1`
followed by a non-digit. -/
theorem removeLeadingOne_cases (kw : String) :
    removeLeadingOne kw = kw ∨
      ∃ c rest, kw.data = '1' :: c :: rest ∧ c.isDigit = false ∧
        removeLeadingOne kw = String.mk (c :: rest) := by
  unfold removeLeadingOne
  split
  next c rest heq =>
    by_cases hd : c.isDigit
    · left
      rw [if_pos hd]
    · right
      exact ⟨c, rest, heq, by simpa using hd, by rw [if_neg hd]⟩
  next => left; rfl

/-- The element the cleaning loop appends is non-empty and does not strip to
empty (though, after the `1`-removal, it need not be stripped itself). -/
theorem removeLeadingOne_of_strip (l : List Char) (h : stripList l ≠ []) :
    removeLeadingOne (String.mk (stripList l)) ≠ "" ∧
      pyStripStr (removeLeadingOne (String.mk (stripList l))) ≠ "" := by
  have hmkne : String.mk (stripList l) ≠ "" := by
    intro he
    exact h (congrArg String.data he)
  rcases removeLeadingOne_cases (String.mk (stripList l)) with hc | ⟨c, rest, hdata, _, hres⟩
  · rw [hc]
    refine ⟨hmkne, ?_⟩
    show String.mk (stripList (String.mk (stripList l)).data) ≠ ""
    rw [show (String.mk (stripList l)).data = stripList l from rfl, stripList_idem]
    exact hmkne
  · rw [hres]
    constructor
    · intro he
      have hd := congrArg String.data he
      exact List.noConfusion hd
    · rw [show (String.mk (stripList l)).data = stripList l from rfl] at hdata
      obtain ⟨y, hy, hyws⟩ := stripList_getLast_not_ws l h
      rw [hdata, List.getLast?_cons_cons] at hy
      intro he
      have hd : stripList (c :: rest) = [] := congrArg String.data he
      exact stripList_ne_nil_of_getLast (c :: rest) y hy hyws hd

/-- Every keyword the cleaning loop emits is non-empty and not
whitespace-only. -/
theorem cleanKeywords_mem (kws : List String) :
    ∀ kw ∈ cleanKeywords kws, kw ≠ "" ∧ pyStripStr kw ≠ "" := by
  have key : ∀ (ks : List String) (acc : List String),
      (∀ x ∈ acc, x ≠ "" ∧ pyStripStr x ≠ "") →
      ∀ kw ∈ ks.foldl (fun acc kw0 =>
          if pyStripStr kw0 ≠ "" then acc ++ [removeLeadingOne (pyStripStr kw0)] else acc) acc,
        kw ≠ "" ∧ pyStripStr kw ≠ "" := by
    intro ks
    induction ks with
    | nil =>
      intro acc hacc kw hkw
      exact hacc kw (by simpa using hkw)
    | cons k ks ih =>
      intro acc hacc kw hkw
      rw [List.foldl_cons] at hkw
      refine ih _ ?_ kw hkw
      intro x hx
      by_cases hne : pyStripStr k ≠ ""
      · rw [if_pos hne] at hx
        rcases List.mem_append.mp hx with hx1 | hx2
        · exact hacc x hx1
        · have hxe : x = removeLeadingOne (pyStripStr k) := by simpa using hx2
          have hslne : stripList k.data ≠ [] := by
            intro hh
            apply hne
            show String.mk (stripList k.data) = ""
            rw [hh]
          rw [hxe]
          exact removeLeadingOne_of_strip k.data hslne
      · rw [if_neg hne] at hx
        exact hacc x hx
  intro kw hkw
  exact key kws [] (by intro x hx; exact absurd hx (List.not_mem_nil x)) kw hkw

/-- The keyword list is either the fallback `[]` or a cleaned, deduplicated
category list. -/
theorem extract_keywords_shape (input : KwInput) :
    (extract_keywords_from_json input).1 = [] ∨
      ∃ m, (extract_keywords_from_json input).1 =
        (cleanKeywords (categoryKeywords m)).dedup := by
  unfold extract_keywords_from_json
  rcases input with s | j
  · dsimp only
    cases hcr : clean_and_repair_json s with
    | obj m => right; exact ⟨m, rfl⟩
    | null => left; rfl
    | bool b => left; rfl
    | num q => left; rfl
    | str t => left; rfl
    | arr items => left; rfl
  · dsimp only
    cases j with
    | obj m => right; exact ⟨m, rfl⟩
    | null => left; rfl
    | bool b => left; rfl
    | num q => left; rfl
    | str t => left; rfl
    | arr items => left; rfl

/-- C10 amended: for every input — raw string or parsed value — the keyword
list of `extract_keywords_from_json` has no duplicates, and every element is
a non-empty string that is not whitespace-only; full strippedness fails only
through the `1`-removal quirk exhibited by the counterexample. -/
theorem C10_keywords_amended (input : KwInput) :
    (extract_keywords_from_json input).1.Nodup ∧
      ∀ kw ∈ (extract_keywords_from_json input).1, kw ≠ "" ∧ pyStripStr kw ≠ "" := by
  rcases extract_keywords_shape input with h0 | ⟨m, hm⟩
  · rw [h0]
    exact ⟨List.nodup_nil, by simp⟩
  · rw [hm]
    refine ⟨List.nodup_dedup _, ?_⟩
    intro kw hkw
    exact cleanKeywords_mem _ kw (List.mem_dedup.mp hkw)

/-- The parsed value `{"subjects": ["1 cat"]}`. -/
def c10Input : KwInput :=
  KwInput.parsed (Json.obj [("subjects", Json.arr [Json.str "1 cat"])])

/-- C10 counterexample: on `{"subjects": ["1 cat"]}` the cleaning loop strips
`"1 cat"` to itself, then drops the leading `1` (the next character, a space,
is no digit) and emits `" cat"` — an element with leading whitespace, so not
every returned keyword is a stripped string. -/
theorem C10_unstripped_keyword_cex :
    (extract_keywords_from_json c10Input).1 = [" cat"] ∧
      pyStripStr " cat" = "cat" ∧ (" cat" : String) ≠ "cat" := by
  refine ⟨rfl, rfl, by decide⟩
